import Mathlib

/-
Verification of the PyDance streaming core
(src/pydance/streaming/stream_core.cpp) against its design document.

The C++ code is shallowly embedded: machine `size_t` arithmetic is modelled
as Nat arithmetic with explicit reduction modulo 2 ^ 64 where C++ wraps,
`double` values are modelled as rationals, and the `static_cast` of a
floating value to an integral type is modelled as truncation toward zero.
Each definition mirrors one C++ entity and keeps its name.
-/

/-- The number of values of the C++ `size_t` type; unsigned arithmetic in the
source wraps modulo this constant. -/
def sizeTW : ℕ := 2 ^ 64

/-- C++ `static_cast` from a floating value to a signed integral type:
truncation toward zero.  On a rational in lowest terms this is the
numerator divided by the denominator, rounding toward zero. -/
def ratTrunc (q : ℚ) : ℤ := q.num.tdiv q.den

/-- C++ `static_cast` of a nonnegative floating value to an unsigned integral
type.  A negative source value is undefined behaviour in C++; the model maps
it to 0 (every theorem that depends on the cast only exercises it where the
choice is irrelevant or the value is nonnegative). -/
def ratTruncToNat (q : ℚ) : ℕ := (ratTrunc q).toNat

/-! ## ConcurrentRingBuffer (stream_core.cpp lines 29-62)

`std::vector<T> buffer_` of length `capacity_`, with `head_`/`tail_`
indices.  The mutex only serialises operations, so the sequential model
below captures every interleaving of complete operations. -/

structure ConcurrentRingBuffer (α : Type) where
  buf : List α
  head : ℕ
  tail : ℕ
  capacity : ℕ

namespace ConcurrentRingBuffer

/-- The constructor: `capacity_(capacity), buffer_(capacity)` — the backing
vector holds `capacity` default-constructed elements. -/
def init (α : Type) [Inhabited α] (c : ℕ) : ConcurrentRingBuffer α :=
  ⟨List.replicate c default, 0, 0, c⟩

/-- `push` (lines 41-48): fails when advancing `tail_` would meet `head_`,
otherwise stores at `tail_` and advances it. -/
def push {α : Type} (rb : ConcurrentRingBuffer α) (item : α) :
    Bool × ConcurrentRingBuffer α :=
  let next_tail := (rb.tail + 1) % rb.capacity
  if next_tail = rb.head then (false, rb)
  else (true, ⟨rb.buf.set rb.tail item, rb.head, next_tail, rb.capacity⟩)

/-- `pop` (lines 50-56): fails when empty, otherwise returns the element at
`head_` and advances `head_`. -/
def pop {α : Type} [Inhabited α] (rb : ConcurrentRingBuffer α) :
    Option α × ConcurrentRingBuffer α :=
  if rb.head = rb.tail then (none, rb)
  else (some (rb.buf.getD rb.head default),
        ⟨rb.buf, (rb.head + 1) % rb.capacity, rb.tail, rb.capacity⟩)

/-- `size` (lines 58-61): `(tail_ - head_ + capacity_) % capacity_` computed
in `size_t`, i.e. with every intermediate step reduced modulo 2 ^ 64 (the
subtraction wraps when `tail_ < head_`). -/
def size {α : Type} (rb : ConcurrentRingBuffer α) : ℕ :=
  (((rb.tail + sizeTW - rb.head) % sizeTW + rb.capacity) % sizeTW) % rb.capacity

/-- One client-visible operation on a ring buffer. -/
inductive RBOp (α : Type) where
  | pushOp (x : α)
  | popOp

/-- Effect of one operation on the buffer state (results discarded). -/
def step {α : Type} [Inhabited α] (rb : ConcurrentRingBuffer α) :
    RBOp α → ConcurrentRingBuffer α
  | .pushOp x => (rb.push x).2
  | .popOp => rb.pop.2

/-- Run a sequence of operations from a starting state. -/
def run {α : Type} [Inhabited α] (rb : ConcurrentRingBuffer α)
    (ops : List (RBOp α)) : ConcurrentRingBuffer α :=
  ops.foldl step rb

/-- The structural invariant maintained by every reachable buffer state. -/
def Inv {α : Type} (c : ℕ) (rb : ConcurrentRingBuffer α) : Prop :=
  rb.head < c ∧ rb.tail < c ∧ rb.capacity = c ∧ rb.buf.length = c

theorem inv_init {α : Type} [Inhabited α] {c : ℕ} (hc : 0 < c) :
    Inv c (init α c) := by
  refine ⟨hc, hc, rfl, ?_⟩
  simp [init]

theorem inv_push {α : Type} {c : ℕ} {rb : ConcurrentRingBuffer α}
    (h : Inv c rb) (hc : 0 < c) (x : α) : Inv c (rb.push x).2 := by
  obtain ⟨h1, h2, h3, h4⟩ := h
  unfold push
  by_cases hful : (rb.tail + 1) % rb.capacity = rb.head
  · simp only [hful, if_pos rfl]
    exact ⟨h1, h2, h3, h4⟩
  · simp only [if_neg hful]
    refine ⟨h1, ?_, h3, ?_⟩
    · exact h3 ▸ Nat.mod_lt _ (h3 ▸ hc)
    · simpa using h4

theorem inv_pop {α : Type} [Inhabited α] {c : ℕ} {rb : ConcurrentRingBuffer α}
    (h : Inv c rb) (hc : 0 < c) : Inv c rb.pop.2 := by
  obtain ⟨h1, h2, h3, h4⟩ := h
  unfold pop
  by_cases hemp : rb.head = rb.tail
  · simp only [if_pos hemp]
    exact ⟨h1, h2, h3, h4⟩
  · simp only [if_neg hemp]
    refine ⟨?_, h2, h3, h4⟩
    exact h3 ▸ Nat.mod_lt _ (h3 ▸ hc)

theorem inv_step {α : Type} [Inhabited α] {c : ℕ} {rb : ConcurrentRingBuffer α}
    (h : Inv c rb) (hc : 0 < c) (op : RBOp α) : Inv c (rb.step op) := by
  cases op with
  | pushOp x => exact inv_push h hc x
  | popOp => exact inv_pop h hc

theorem inv_run {α : Type} [Inhabited α] {c : ℕ} {rb : ConcurrentRingBuffer α}
    (h : Inv c rb) (hc : 0 < c) (ops : List (RBOp α)) : Inv c (rb.run ops) := by
  induction ops generalizing rb with
  | nil => exact h
  | cons op rest ih => exact ih (inv_step h hc op)

/-- Under the invariant (and a capacity that fits twice into the `size_t`
range, as every capacity in the source does), the wrapped `size` computation
collapses to the intended occupancy count. -/
theorem size_eq {α : Type} {c : ℕ} {rb : ConcurrentRingBuffer α}
    (h : Inv c rb) (hc : 0 < c) (hw : 2 * c ≤ sizeTW) :
    rb.size = (rb.tail + c - rb.head) % c := by
  obtain ⟨h1, h2, h3, _⟩ := h
  unfold size
  rw [h3]
  have key : ((rb.tail + sizeTW - rb.head) % sizeTW + c) % sizeTW =
      rb.tail + c - rb.head := by
    unfold sizeTW at hw ⊢
    omega
  rw [key]

/-- The occupancy of a reachable buffer is strictly below the capacity. -/
theorem size_lt {α : Type} {c : ℕ} {rb : ConcurrentRingBuffer α}
    (hc : 0 < c) (h3 : rb.capacity = c) : rb.size < c := by
  unfold size
  rw [h3]
  exact Nat.mod_lt _ hc

/-- Under the invariant, `push` fails exactly when `c - 1` items are held. -/
theorem push_fails_iff {α : Type} {c : ℕ} {rb : ConcurrentRingBuffer α}
    (h : Inv c rb) (hc : 0 < c) (hw : 2 * c ≤ sizeTW) (x : α) :
    (rb.push x).1 = false ↔ rb.size = c - 1 := by
  rw [size_eq h hc hw]
  obtain ⟨h1, h2, h3, _⟩ := h
  unfold push
  rw [h3]
  by_cases hful : (rb.tail + 1) % c = rb.head
  · simp only [hful, if_pos rfl]
    constructor
    · intro _
      rcases Nat.lt_or_ge (rb.tail + 1) c with hlt | hge
      · rw [Nat.mod_eq_of_lt hlt] at hful
        have : rb.tail + c - rb.head = c - 1 := by omega
        rw [this, Nat.mod_eq_of_lt (by omega)]
      · have hte : rb.tail + 1 = c := by omega
        rw [hte, Nat.mod_self] at hful
        have : rb.tail + c - rb.head = 2 * c - 1 := by omega
        rw [this]
        have : 2 * c - 1 = (c - 1) + 1 * c := by omega
        rw [this, Nat.add_mul_mod_self_right, Nat.mod_eq_of_lt (by omega)]
    · intro _; rfl
  · simp only [if_neg hful]
    constructor
    · intro hcontra; exact absurd hcontra (by simp)
    · intro hsz
      exfalso
      apply hful
      rcases Nat.lt_or_ge (rb.tail + 1) c with hlt | hge
      · rw [Nat.mod_eq_of_lt hlt]
        rcases Nat.lt_or_ge rb.tail rb.head with ho | ho
        · have : rb.tail + c - rb.head < c := by omega
          rw [Nat.mod_eq_of_lt this] at hsz
          omega
        · have : rb.tail + c - rb.head = (rb.tail - rb.head) + 1 * c := by omega
          rw [this, Nat.add_mul_mod_self_right, Nat.mod_eq_of_lt (by omega)] at hsz
          omega
      · have hte : rb.tail + 1 = c := by omega
        rw [hte, Nat.mod_self]
        have : rb.tail + c - rb.head = (c - 1 - rb.head) + 1 * c := by omega
        rw [this, Nat.add_mul_mod_self_right, Nat.mod_eq_of_lt (by omega)] at hsz
        omega

end ConcurrentRingBuffer

/-! ## NetworkAwareScheduler (stream_core.cpp lines 64-110)

`double` telemetry is modelled as ℚ; the two `std::atomic<double>` smoothed
values are plain fields since every claim concerns sequences of complete
operations. -/

structure NetworkMetrics where
  bandwidth : ℚ
  latency : ℚ
  packet_loss : ℚ
  jitter : ℚ
  timestamp : ℕ

instance : Inhabited NetworkMetrics := ⟨⟨0, 0, 0, 0, 0⟩⟩

structure NetworkAwareScheduler where
  metrics_buffer : ConcurrentRingBuffer NetworkMetrics
  smoothed_bandwidth : ℚ
  smoothed_latency : ℚ

/-- Initial scheduler state: a 100-slot history buffer and zero-initialised
smoothed values (lines 75-77). -/
def schedulerInit : NetworkAwareScheduler :=
  ⟨ConcurrentRingBuffer.init NetworkMetrics 100, 0, 0⟩

/-- `update_metrics` (lines 80-89): exponential moving average with
`alpha = 0.2` applied to bandwidth and latency. -/
def update_metrics (s : NetworkAwareScheduler) (metrics : NetworkMetrics) :
    NetworkAwareScheduler :=
  let alpha : ℚ := 0.2
  ⟨s.metrics_buffer,
   alpha * metrics.bandwidth + (1 - alpha) * s.smoothed_bandwidth,
   alpha * metrics.latency + (1 - alpha) * s.smoothed_latency⟩

/-- `add_metrics_sample` (lines 103-106): push the raw sample into the
history buffer (result discarded) and update the smoothed values. -/
def add_metrics_sample (s : NetworkAwareScheduler) (metrics : NetworkMetrics) :
    NetworkAwareScheduler :=
  update_metrics
    ⟨(s.metrics_buffer.push metrics).2, s.smoothed_bandwidth, s.smoothed_latency⟩
    metrics

/-- `calculate_optimal_bitrate` (lines 92-101). -/
def calculate_optimal_bitrate (s : NetworkAwareScheduler) : ℤ :=
  let available_bw := s.smoothed_bandwidth
  let current_latency := s.smoothed_latency
  let safety_factor : ℚ := max 0.7 (1 - current_latency / 100)
  let optimal_bitrate : ℤ := ratTrunc (available_bw * 1000 * safety_factor * 0.8)
  max 300 (min optimal_bitrate 20000)

/-- Modelled from the spec wording of §4.2: `safety = max(0.7, 1 -
latency/100)`, `bitrate = bandwidth_kbps * safety * 0.8` with
`bandwidth_kbps` the smoothed bandwidth (Mbps) times 1000, clamped to
[300, 20000]. -/
def specOptimalBitrate (s : NetworkAwareScheduler) : ℤ :=
  let bandwidth_kbps : ℚ := s.smoothed_bandwidth * 1000
  let safety : ℚ := max 0.7 (1 - s.smoothed_latency / 100)
  min (max (ratTrunc (bandwidth_kbps * safety * 0.8)) 300) 20000

/-! ## QuantumStreamProtocol (stream_core.cpp lines 112-227) -/

/-- One node of the `ChunkQuadTree` (lines 118-124): the `children` field
stores the chunk ids of the declared dependencies. -/
structure ChunkNode where
  chunk_id : ℕ
  timestamp : ℕ
  size : ℕ
  children : List ℕ
  is_leaf : Bool

instance : Inhabited ChunkNode := ⟨⟨0, 0, 0, [], false⟩⟩

structure ChunkQuadTree where
  nodes : List ChunkNode
  root_id : ℕ

/-- The constructor (lines 130-133): a single root node `{0,0,0,{},false}`. -/
def chunkTreeInit : ChunkQuadTree := ⟨[⟨0, 0, 0, [], false⟩], 0⟩

/-- `insert_chunk` (lines 135-139): appends a node carrying the dependency
list; the node is a leaf exactly when it has no dependencies.  No other node
(in particular not the root) is modified. -/
def insert_chunk (t : ChunkQuadTree) (chunk_id ts size : ℕ)
    (dependencies : List ℕ) : ChunkQuadTree :=
  ⟨t.nodes ++ [⟨chunk_id, ts, size, dependencies, dependencies.isEmpty⟩],
   t.root_id⟩

/-- Sequential visiting of a list of child ids, threading the
(visited, sequence) state; mirrors the `for (uint32_t dep : ...)` loop of
lines 150-152. -/
def dfsFold (f : ℕ → List Bool → List ℕ → List Bool × List ℕ) :
    List ℕ → List Bool → List ℕ → List Bool × List ℕ
  | [], v, s => (v, s)
  | c :: cs, v, s =>
    let r := f c v s
    dfsFold f cs r.1 r.2

/-- The recursive lambda `dfs` of lines 146-157, made total by a fuel
parameter (the C++ recursion is only guarded by the `visited` array; every
terminating source execution is reproduced by any sufficiently large
fuel). -/
def dfsVisit (nodes : List ChunkNode) : ℕ → ℕ → List Bool → List ℕ →
    List Bool × List ℕ
  | 0 => fun _ v s => (v, s)
  | fuel + 1 => fun node_id v s =>
    if v.getD node_id false then (v, s)
    else
      let v1 := v.set node_id true
      let nd := nodes.getD node_id default
      let r := dfsFold (dfsVisit nodes fuel) nd.children v1 s
      if nd.is_leaf then (r.1, r.2 ++ [nd.chunk_id]) else r

/-- `get_optimal_chunk_sequence` (lines 141-161): depth-first traversal from
`root_id_`, collecting the chunk ids of visited leaf nodes.  The
`target_bitrate` argument is kept although the body never reads it. -/
def get_optimal_chunk_sequence (t : ChunkQuadTree) (target_bitrate : ℕ) :
    List ℕ :=
  let visited := List.replicate t.nodes.length false
  (dfsVisit t.nodes t.nodes.length t.root_id visited []).2

/-- `QuantumPacket` (lines 168-175); payload bytes are modelled as ℕ. -/
structure QuantumPacket where
  stream_id : ℕ
  chunk_id : ℕ
  sequence_number : ℕ
  timestamp : ℕ
  data : List ℕ
  priority : ℕ

instance : Inhabited QuantumPacket := ⟨⟨0, 0, 0, 0, [], 0⟩⟩

/-- `calculate_chunk_priority` (lines 214-220): the first argument is the
byte position `i` the caller passes, not a chunk index. -/
def calculate_chunk_priority (position total_size : ℕ) : ℕ :=
  if position % 100 = 0 then 255
  else if position % 10 = 0 then 200
  else 100

/-- `calculate_optimal_chunk_size` (lines 203-212). -/
def calculate_optimal_chunk_size (s : NetworkAwareScheduler) : ℕ :=
  let latency := s.smoothed_latency
  let bandwidth := s.smoothed_bandwidth
  let optimal_size_ms : ℚ := max 100 (min 2000 (latency * 2))
  let chunk_size : ℕ := ratTruncToNat (bandwidth * 1000 * optimal_size_ms / 8000)
  max 1024 (min chunk_size 65536)

/-- The `for (size_t i = 0; i < media_data.size(); i += chunk_size)` loop of
lines 183-197, made total by fuel (one unit per emitted packet plus one;
`media.length + 1` suffices whenever `cs ≥ 1`, which `chunk_size ≥ 1024`
guarantees).  `seq` carries `packets.size()` at entry to the iteration. -/
def genPacketsLoop (cs sid ts : ℕ) (media : List ℕ) :
    ℕ → ℕ → ℕ → List QuantumPacket
  | 0, _, _ => []
  | fuel + 1, i, seq =>
    if i < media.length then
      ⟨sid, i / cs, seq, ts, (media.drop i).take cs,
       calculate_chunk_priority i media.length⟩ ::
        genPacketsLoop cs sid ts media fuel (i + cs) (seq + 1)
    else []

/-- `generate_packets` (lines 177-200).  `get_current_timestamp` reads the
system clock; the model takes the timestamp as the parameter `ts`. -/
def generate_packets (s : NetworkAwareScheduler) (media_data : List ℕ)
    (stream_id ts : ℕ) : List QuantumPacket :=
  let chunk_size := calculate_optimal_chunk_size s
  genPacketsLoop chunk_size stream_id ts media_data (media_data.length + 1) 0 0

/-- Modelled from the claim wording for the chunk-size formula:
`clamp(bandwidth_kbps * chunk_duration_ms / 8, 1024, 65536)` with
`chunk_duration_ms = clamp(latency*2, 100, 2000)` and `bandwidth_kbps` the
smoothed bandwidth (Mbps) times 1000. -/
def claimedChunkSize (s : NetworkAwareScheduler) : ℕ :=
  let bandwidth_kbps : ℚ := s.smoothed_bandwidth * 1000
  let chunk_duration_ms : ℚ := max 100 (min 2000 (s.smoothed_latency * 2))
  max 1024 (min (ratTruncToNat (bandwidth_kbps * chunk_duration_ms / 8)) 65536)

/-- The chunk-size formula the source actually computes, written in the
spec's clamp vocabulary: the divisor is 8000, not 8. -/
def amendedChunkSize (s : NetworkAwareScheduler) : ℕ :=
  let bandwidth_kbps : ℚ := s.smoothed_bandwidth * 1000
  let chunk_duration_ms : ℚ := max 100 (min 2000 (s.smoothed_latency * 2))
  max 1024 (min (ratTruncToNat (bandwidth_kbps * chunk_duration_ms / 8000)) 65536)

/-! ## QuantumIOCore (stream_core.cpp lines 229-323)

The lock-free queue's linked list of nodes is modelled as the FIFO list of
tasks it holds; a task is modelled as an opaque identifier, since the core
never inspects a task.  The `std::atomic<bool> running_` flag is a plain
field of the sequential model. -/

structure LockFreeMPSCQueue where
  items : List ℕ

instance : Inhabited LockFreeMPSCQueue := ⟨⟨[]⟩⟩

namespace LockFreeMPSCQueue

/-- `push` (lines 245-249): appends the task at the tail. -/
def push (q : LockFreeMPSCQueue) (task : ℕ) : LockFreeMPSCQueue :=
  ⟨q.items ++ [task]⟩

/-- `pop` (lines 251-262): removes the task at the head, if any. -/
def pop (q : LockFreeMPSCQueue) : Option ℕ × LockFreeMPSCQueue :=
  match q.items with
  | [] => (none, q)
  | t :: rest => (some t, ⟨rest⟩)

/-- `size_approx` (lines 264-267): the body is literally `return 0;`. -/
def size_approx (q : LockFreeMPSCQueue) : ℕ := 0

end LockFreeMPSCQueue

structure QuantumIOCore where
  num_io_threads : ℕ
  task_queues : List LockFreeMPSCQueue
  running : Bool

namespace QuantumIOCore

/-- `get_optimal_queue` (lines 276-286).  The two uniformly random draws
`dist(gen)` are modelled as the parameters `q1` and `q2`; the body then
compares the two approximate occupancies and keeps the smaller one. -/
def get_optimal_queue (core : QuantumIOCore) (q1 q2 : ℕ) : ℕ :=
  if (core.task_queues.getD q1 default).size_approx <
      (core.task_queues.getD q2 default).size_approx
  then q1 else q2

/-- `submit` (lines 307-311): picks a queue and pushes the task into it.
The C++ function returns `void` and performs no check of `running_`, which
is exactly what the model expresses: the only output is the new state. -/
def submit (core : QuantumIOCore) (q1 q2 : ℕ) (task : ℕ) : QuantumIOCore :=
  let queue_idx := core.get_optimal_queue q1 q2
  ⟨core.num_io_threads,
   core.task_queues.set queue_idx
     ((core.task_queues.getD queue_idx default).push task),
   core.running⟩

/-- The destructor (lines 300-305) stores `false` into `running_` and joins
the workers; on the queue state it is the identity. -/
def shutdown (core : QuantumIOCore) : QuantumIOCore :=
  ⟨core.num_io_threads, core.task_queues, false⟩

end QuantumIOCore

/-! ## ProcessingPipeline (stream_core.cpp lines 346-367)

A stage holds a processing function and a bounded ring buffer of frames; a
frame is a byte vector, modelled as `List ℕ`. -/

structure Stage where
  processor : List ℕ → List ℕ
  buffer : ConcurrentRingBuffer (List ℕ)

structure ProcessingPipeline where
  stages : List Stage

namespace ProcessingPipeline

/-- `add_stage` (lines 356-360). -/
def add_stage (p : ProcessingPipeline) (buffer_size : ℕ)
    (processor : List ℕ → List ℕ) : ProcessingPipeline :=
  ⟨p.stages ++ [⟨processor, ConcurrentRingBuffer.init (List ℕ) buffer_size⟩]⟩

/-- `process` (lines 362-366): pushes the data into stage 0's buffer and
discards the Boolean result of `push`.  The C++ return type is `void`, so
the model's only output is the new pipeline state — there is no channel
through which a failed push could reach the caller. -/
def process (p : ProcessingPipeline) (data : List ℕ) : ProcessingPipeline :=
  match p.stages with
  | [] => p
  | st0 :: rest => ⟨⟨st0.processor, (st0.buffer.push data).2⟩ :: rest⟩

end ProcessingPipeline

/-! ## Helper lemmas -/

set_option maxRecDepth 20000

theorem getD_set_self {α : Type} :
    ∀ (l : List α) (n : ℕ) (a d : α), n < l.length → (l.set n a).getD n d = a
  | [], n, _, _, h => absurd h (by simp)
  | _ :: _, 0, _, _, _ => rfl
  | _ :: xs, n + 1, a, d, h => getD_set_self xs n a d (by simpa using h)

/-- A nonempty packet list means the loop entered its body: the byte index
was still inside the payload and fuel remained. -/
theorem genPacketsLoop_ne_nil {cs sid ts : ℕ} {media : List ℕ}
    {fuel i seq : ℕ} (h : genPacketsLoop cs sid ts media fuel i seq ≠ []) :
    i < media.length := by
  cases fuel with
  | zero => exact absurd rfl h
  | succ f =>
    by_cases hi : i < media.length
    · exact hi
    · exact absurd (by simp [genPacketsLoop, if_neg hi]) h

/-- The packet payload lengths emitted by the loop partition what remains of
the media payload. -/
theorem genPacketsLoop_sum (cs sid ts : ℕ) (media : List ℕ) :
    ∀ (fuel i seq : ℕ), 0 < cs → media.length - i < fuel →
    ((genPacketsLoop cs sid ts media fuel i seq).map
        (fun p => p.data.length)).sum = media.length - i := by
  intro fuel
  induction fuel with
  | zero => intro i seq _ hf; omega
  | succ f ih =>
    intro i seq hcs hf
    by_cases hi : i < media.length
    · rw [genPacketsLoop, if_pos hi]
      simp only [List.map_cons, List.sum_cons]
      rw [ih (i + cs) (seq + 1) hcs (by omega)]
      have hlen : ((media.drop i).take cs).length = min cs (media.length - i) := by
        simp [List.length_take, List.length_drop]
      simp only [hlen]
      omega
    · rw [genPacketsLoop, if_neg hi]
      simp
      omega

/-- Closed form of the `j`-th packet emitted by the loop. -/
theorem genPacketsLoop_getD (cs sid ts : ℕ) (media : List ℕ) :
    ∀ (fuel i seq j : ℕ), 0 < cs → media.length - i < fuel →
    j < (genPacketsLoop cs sid ts media fuel i seq).length →
    (genPacketsLoop cs sid ts media fuel i seq).getD j default =
      ⟨sid, (i + j * cs) / cs, seq + j, ts,
       (media.drop (i + j * cs)).take cs,
       calculate_chunk_priority (i + j * cs) media.length⟩ := by
  intro fuel
  induction fuel with
  | zero => intro i seq j _ hf; omega
  | succ f ih =>
    intro i seq j hcs hf hj
    by_cases hi : i < media.length
    · rw [genPacketsLoop, if_pos hi] at hj ⊢
      cases j with
      | zero => simp
      | succ jj =>
        have := ih (i + cs) (seq + 1) jj hcs (by omega) (by simpa using hj)
        simp only [List.getD_cons_succ, this]
        have e1 : i + cs + jj * cs = i + (jj + 1) * cs := by ring
        have e2 : seq + 1 + jj = seq + (jj + 1) := by ring
        rw [e1, e2]
    · rw [genPacketsLoop, if_neg hi] at hj
      simp at hj

/-- Every emitted packet except possibly the last carries exactly `cs`
payload bytes. -/
theorem genPacketsLoop_full_chunks (cs sid ts : ℕ) (media : List ℕ) :
    ∀ (fuel i seq j : ℕ), 0 < cs → media.length - i < fuel →
    j + 1 < (genPacketsLoop cs sid ts media fuel i seq).length →
    ((genPacketsLoop cs sid ts media fuel i seq).getD j default).data.length
      = cs := by
  intro fuel
  induction fuel with
  | zero => intro i seq j _ hf; omega
  | succ f ih =>
    intro i seq j hcs hf hj
    by_cases hi : i < media.length
    · rw [genPacketsLoop, if_pos hi] at hj ⊢
      cases j with
      | zero =>
        simp only [List.length_cons] at hj
        have hrest : genPacketsLoop cs sid ts media f (i + cs) (seq + 1) ≠ [] := by
          intro hnil
          rw [hnil] at hj
          simp at hj
        have hnext : i + cs < media.length := genPacketsLoop_ne_nil hrest
        have hlen : ((media.drop i).take cs).length = min cs (media.length - i) := by
          simp [List.length_take, List.length_drop]
        simp only [List.getD_cons_zero]
        show ((media.drop i).take cs).length = cs
        omega
      | succ jj =>
        simp only [List.getD_cons_succ]
        exact ih (i + cs) (seq + 1) jj hcs (by omega) (by simpa using hj)
    · rw [genPacketsLoop, if_neg hi] at hj
      simp at hj

/-- Every emitted packet carries at most `cs` payload bytes. -/
theorem genPacketsLoop_le_chunk (cs sid ts : ℕ) (media : List ℕ)
    (fuel i seq j : ℕ) (hcs : 0 < cs) (hf : media.length - i < fuel)
    (hj : j < (genPacketsLoop cs sid ts media fuel i seq).length) :
    ((genPacketsLoop cs sid ts media fuel i seq).getD j default).data.length
      ≤ cs := by
  rw [genPacketsLoop_getD cs sid ts media fuel i seq j hcs hf hj]
  simp [List.length_take]

/-- The chunk size computed from any scheduler state is clamped into
[1024, 65536]. -/
theorem chunk_size_bounds (s : NetworkAwareScheduler) :
    1024 ≤ calculate_optimal_chunk_size s
    ∧ calculate_optimal_chunk_size s ≤ 65536 := by
  unfold calculate_optimal_chunk_size
  constructor
  · exact le_max_left _ _
  · exact max_le (by norm_num) (min_le_right _ _)

/-- Shape of every tree reachable by `insert_chunk` calls: the root node is
still the initial `{0,0,0,{},false}` node and `root_id` is still 0. -/
theorem built_tree_shape (inserts : List (ℕ × ℕ × ℕ × List ℕ)) :
    ∃ rest, (inserts.foldl
        (fun t p => insert_chunk t p.1 p.2.1 p.2.2.1 p.2.2.2)
        chunkTreeInit).nodes = (⟨0, 0, 0, [], false⟩ : ChunkNode) :: rest
      ∧ (inserts.foldl
        (fun t p => insert_chunk t p.1 p.2.1 p.2.2.1 p.2.2.2)
        chunkTreeInit).root_id = 0 := by
  suffices h : ∀ (l : List (ℕ × ℕ × ℕ × List ℕ)) (t : ChunkQuadTree)
      (rest0 : List ChunkNode),
      t.nodes = (⟨0, 0, 0, [], false⟩ : ChunkNode) :: rest0 → t.root_id = 0 →
      ∃ rest, (l.foldl (fun t p => insert_chunk t p.1 p.2.1 p.2.2.1 p.2.2.2)
          t).nodes = (⟨0, 0, 0, [], false⟩ : ChunkNode) :: rest
        ∧ (l.foldl (fun t p => insert_chunk t p.1 p.2.1 p.2.2.1 p.2.2.2)
          t).root_id = 0 by
    exact h inserts chunkTreeInit [] rfl rfl
  intro l
  induction l with
  | nil => intro t rest0 hn hr; exact ⟨rest0, hn, hr⟩
  | cons p ps ih =>
    intro t rest0 hn hr
    apply ih (insert_chunk t p.1 p.2.1 p.2.2.1 p.2.2.2)
      (rest0 ++ [⟨p.1, p.2.1, p.2.2.1, p.2.2.2, p.2.2.2.isEmpty⟩])
    · simp [insert_chunk, hn]
    · simp [insert_chunk, hr]

/-- The DFS of `get_optimal_chunk_sequence` starts (and, because the root's
child list is empty and the root is not a leaf, also ends) at the root: the
emitted sequence is empty for every tree of the shape above. -/
theorem sequence_empty_of_shape (t : ChunkQuadTree) (rest : List ChunkNode)
    (hn : t.nodes = (⟨0, 0, 0, [], false⟩ : ChunkNode) :: rest)
    (hr : t.root_id = 0) (tb : ℕ) :
    get_optimal_chunk_sequence t tb = [] := by
  unfold get_optimal_chunk_sequence
  rw [hn, hr]
  simp only [List.length_cons, List.replicate_succ]
  rw [dfsVisit]
  simp [dfsFold]

/-- The metrics history buffer of a scheduler state reached by folding
samples is the result of running the corresponding pushes on the initial
buffer. -/
theorem metrics_buffer_runs (samples : List NetworkMetrics)
    (s0 : NetworkAwareScheduler) :
    (samples.foldl add_metrics_sample s0).metrics_buffer
      = s0.metrics_buffer.run
          (samples.map ConcurrentRingBuffer.RBOp.pushOp) := by
  induction samples generalizing s0 with
  | nil => rfl
  | cons m rest ih =>
    simp only [List.foldl_cons, List.map_cons]
    rw [ih]
    rfl

/-- The source's bitrate computation agrees with the spec's clamp phrasing
for every scheduler state. -/
theorem bitrate_eq_spec (s : NetworkAwareScheduler) :
    calculate_optimal_bitrate s = specOptimalBitrate s := by
  unfold calculate_optimal_bitrate specOptimalBitrate
  rw [max_def, min_def, max_def, min_def]
  split_ifs <;> omega

/-! ## Claim theorems -/

/-- A video-pipeline stage-0 buffer at capacity 5 that already holds 4
frames: `push` can accept no further frame (capacity-5 ring buffers hold at
most 4 items). -/
def fullStageBuffer : ConcurrentRingBuffer (List ℕ) :=
  ConcurrentRingBuffer.run (ConcurrentRingBuffer.init (List ℕ) 5)
    [.pushOp [1], .pushOp [2], .pushOp [3], .pushOp [4]]

/-- A one-stage pipeline whose stage-0 buffer is full. -/
def fullVideoPipeline : ProcessingPipeline :=
  ⟨[⟨fun frame => frame, fullStageBuffer⟩]⟩

/-- C1: the claim says a `process` call on a pipeline whose stage-0 buffer
is full signals the failure to its immediate caller rather than discarding
the data.  The code violates this: at the concrete full pipeline below the
push fails, `process` (whose C++ return type is `void`, so the model's only
output is the new state) leaves the pipeline unchanged, and the submitted
frame `[9]` is silently gone. -/
theorem C1_process_drops_data_when_full :
    fullStageBuffer.capacity = 5
    ∧ fullStageBuffer.size = 4
    ∧ (fullStageBuffer.push [9]).1 = false
    ∧ ProcessingPipeline.process fullVideoPipeline [9] = fullVideoPipeline :=
  ⟨rfl, by decide, by decide, rfl⟩

/-- C2: the claim says `get_optimal_chunk_sequence` emits every inserted
leaf chunk.  The code violates this: inserting leaf chunk 1 and asking for
the sequence yields `[]` — in fact the sequence is empty for every tree
built by `insert_chunk` calls, because `insert_chunk` never links the new
node into the root's (empty) child list and the DFS starts at the root,
which is not a leaf. -/
theorem C2_sequence_always_empty :
    (get_optimal_chunk_sequence (insert_chunk chunkTreeInit 1 5 10 []) 1000 = []
      ∧ ((insert_chunk chunkTreeInit 1 5 10 []).nodes.getD 1 default).is_leaf = true)
    ∧ ∀ (inserts : List (ℕ × ℕ × ℕ × List ℕ)) (tb : ℕ),
        get_optimal_chunk_sequence
          (inserts.foldl (fun t p => insert_chunk t p.1 p.2.1 p.2.2.1 p.2.2.2)
            chunkTreeInit) tb = [] := by
  refine ⟨⟨by decide, by decide⟩, ?_⟩
  intro inserts tb
  obtain ⟨rest, hn, hr⟩ := built_tree_shape inserts
  exact sequence_empty_of_shape _ rest hn hr tb

/-- C3: for every scheduler state reachable by recording any sequence of
samples, `calculate_optimal_bitrate` returns the truncation of
`bandwidth_kbps * safety * 0.8` (with `safety = max(0.7, 1 - latency/100)`
and `bandwidth_kbps` the smoothed bandwidth in Mbps times 1000) clamped to
[300, 20000]; in particular the result always lies within [300, 20000]. -/
theorem C3_optimal_bitrate_formula_and_bounds (samples : List NetworkMetrics) :
    calculate_optimal_bitrate (samples.foldl add_metrics_sample schedulerInit)
      = specOptimalBitrate (samples.foldl add_metrics_sample schedulerInit)
    ∧ 300 ≤ calculate_optimal_bitrate
        (samples.foldl add_metrics_sample schedulerInit)
    ∧ calculate_optimal_bitrate (samples.foldl add_metrics_sample schedulerInit)
      ≤ 20000 := by
  refine ⟨bitrate_eq_spec _, ?_, ?_⟩
  · unfold calculate_optimal_bitrate
    exact le_max_left _ _
  · unfold calculate_optimal_bitrate
    exact max_le (by norm_num) (min_le_right _ _)

/-- C4: for every scheduler state, payload and stream id, the packets
emitted by `generate_packets` carry payload byte sizes that sum exactly to
the payload size; every packet except possibly the last carries exactly the
computed chunk size, the last carries at most that size, and the computed
chunk size always lies within [1024, 65536]. -/
theorem C4_generate_packets_partition (s : NetworkAwareScheduler)
    (media_data : List ℕ) (stream_id ts : ℕ) :
    ((generate_packets s media_data stream_id ts).map
        (fun p => p.data.length)).sum = media_data.length
    ∧ (∀ j, j + 1 < (generate_packets s media_data stream_id ts).length →
        ((generate_packets s media_data stream_id ts).getD j default).data.length
          = calculate_optimal_chunk_size s)
    ∧ (∀ j, j < (generate_packets s media_data stream_id ts).length →
        ((generate_packets s media_data stream_id ts).getD j default).data.length
          ≤ calculate_optimal_chunk_size s)
    ∧ 1024 ≤ calculate_optimal_chunk_size s
    ∧ calculate_optimal_chunk_size s ≤ 65536 := by
  have hcs : 0 < calculate_optimal_chunk_size s := by
    have := (chunk_size_bounds s).1
    omega
  refine ⟨?_, ?_, ?_, (chunk_size_bounds s).1, (chunk_size_bounds s).2⟩
  · have := genPacketsLoop_sum (calculate_optimal_chunk_size s) stream_id ts
      media_data (media_data.length + 1) 0 0 hcs (by omega)
    simpa [generate_packets] using this
  · intro j hj
    exact genPacketsLoop_full_chunks (calculate_optimal_chunk_size s)
      stream_id ts media_data (media_data.length + 1) 0 0 j hcs (by omega) hj
  · intro j hj
    exact genPacketsLoop_le_chunk (calculate_optimal_chunk_size s)
      stream_id ts media_data (media_data.length + 1) 0 0 j hcs (by omega) hj

/-- Witness for C4 at a concrete input: the initial scheduler state yields
chunk size 1024, and a 1031-byte payload is split into packets whose sizes
sum to 1031, the first being a full 1024-byte chunk. -/
theorem C4_generate_packets_partition_witness :
    ((generate_packets schedulerInit (List.replicate 1031 0) 1 0).map
        (fun p => p.data.length)).sum = 1031
    ∧ ((generate_packets schedulerInit (List.replicate 1031 0) 1 0).getD 0
        default).data.length = calculate_optimal_chunk_size schedulerInit := by
  constructor
  · have h := (C4_generate_packets_partition schedulerInit
      (List.replicate 1031 0) 1 0).1
    rwa [List.length_replicate] at h
  · exact (C4_generate_packets_partition schedulerInit
      (List.replicate 1031 0) 1 0).2.1 0 (by with_unfolding_all decide)

/-- A reachable scheduler state (one recorded sample of bandwidth 412 Mbps
at zero latency): smoothed bandwidth 82.4 Mbps, smoothed latency 0. -/
def sched1030 : NetworkAwareScheduler :=
  add_metrics_sample schedulerInit ⟨412, 0, 0, 0, 0⟩

/-- Counterexample to C5 as stated: at the reachable state `sched1030`
(and likewise at bandwidth 5 Mbps) the claimed formula
`clamp(bandwidth_kbps * chunk_duration_ms / 8, 1024, 65536)` disagrees with
what `calculate_optimal_chunk_size` returns, because the source divides by
8000, not 8. -/
theorem C5_chunk_size_counterexample :
    calculate_optimal_chunk_size sched1030 = 1030
    ∧ claimedChunkSize sched1030 = 65536
    ∧ calculate_optimal_chunk_size
        (add_metrics_sample schedulerInit ⟨5, 0, 0, 0, 0⟩) = 1024
    ∧ claimedChunkSize (add_metrics_sample schedulerInit ⟨5, 0, 0, 0, 0⟩) = 12500
    ∧ (1024 : ℕ) ≠ 12500 := by with_unfolding_all decide

/-- C5 amended: for every scheduler state the chunk size used by
packetization equals `clamp(trunc(bandwidth_kbps * chunk_duration_ms /
8000), 1024, 65536)` with `chunk_duration_ms = clamp(latency*2, 100,
2000)` — the source's divisor is 8000 where the claim said 8. -/
theorem C5_chunk_size_formula (s : NetworkAwareScheduler) :
    calculate_optimal_chunk_size s = amendedChunkSize s := rfl

/-- Counterexample to C6 as stated: at the reachable state `sched1030`
(chunk size 1030) the packet with chunk index 1 — an index divisible by
neither 10 nor 100, which the claim says gets priority 100 — has priority
200, because the source computes priority from the byte offset `i`
(here 1030, divisible by 10), not from the chunk index. -/
theorem C6_priority_counterexample :
    1 < (generate_packets sched1030 (List.replicate 1031 0) 1 0).length
    ∧ ((generate_packets sched1030 (List.replicate 1031 0) 1 0).getD 1
        default).chunk_id = 1
    ∧ ¬((1 : ℕ) % 100 = 0) ∧ ¬((1 : ℕ) % 10 = 0)
    ∧ ((generate_packets sched1030 (List.replicate 1031 0) 1 0).getD 1
        default).priority = 200
    ∧ (200 : ℕ) ≠ 100 := by with_unfolding_all decide

/-- C6 amended: priority assignment is positional over byte offsets, not
chunk indices: the packet with index `j` starts at byte offset
`j * chunk_size` and gets priority 255 when that offset is divisible by
100, else 200 when divisible by 10, else 100 (the rule the claim states
coincides with this only when the offset and the index agree). -/
theorem C6_priority_by_byte_offset (s : NetworkAwareScheduler)
    (media_data : List ℕ) (stream_id ts j : ℕ)
    (hj : j < (generate_packets s media_data stream_id ts).length) :
    ((generate_packets s media_data stream_id ts).getD j default).priority
      = calculate_chunk_priority (j * calculate_optimal_chunk_size s)
          media_data.length := by
  have hcs : 0 < calculate_optimal_chunk_size s := by
    have := (chunk_size_bounds s).1
    omega
  have h := genPacketsLoop_getD (calculate_optimal_chunk_size s) stream_id ts
    media_data (media_data.length + 1) 0 0 j hcs (by omega) hj
  rw [show generate_packets s media_data stream_id ts
      = genPacketsLoop (calculate_optimal_chunk_size s) stream_id ts
          media_data (media_data.length + 1) 0 0 from rfl, h]
  simp

/-- Witness for C6 amended at a concrete input: packet 1 of a 1031-byte
payload at state `sched1030` gets the priority computed from byte offset
`1 * 1030`. -/
theorem C6_priority_by_byte_offset_witness :
    ((generate_packets sched1030 (List.replicate 1031 0) 1 0).getD 1
        default).priority
      = calculate_chunk_priority (1 * calculate_optimal_chunk_size sched1030)
          (List.replicate 1031 (0 : ℕ)).length :=
  C6_priority_by_byte_offset sched1030 (List.replicate 1031 0) 1 0 1
    (by with_unfolding_all decide)

/-- Counterexample to C7's FIFO sub-claim as stated: with capacity 3, after
`push 1` the `push 2` succeeds, and the pop that immediately follows it
(with no intervening pop) returns 1, the oldest element — not the item 2
just pushed. -/
theorem C7_fifo_counterexample :
    ((ConcurrentRingBuffer.run (ConcurrentRingBuffer.init ℕ 3)
        [.pushOp 1]).push 2).1 = true
    ∧ (((ConcurrentRingBuffer.run (ConcurrentRingBuffer.init ℕ 3)
        [.pushOp 1]).push 2).2.pop).1 = some 1
    ∧ some (1 : ℕ) ≠ some 2 := by decide

/-- C7 amended: for every operation sequence on a buffer of capacity `c`
(0 < c, and `2*c` within the `size_t` range as for every capacity in the
source), `size()` never exceeds the capacity and is never negative; and a
pop immediately following a successful push into a buffer that was empty
before the push returns the pushed item (in general a pop returns the
oldest unpopped item, so FIFO order is preserved). -/
theorem C7_size_bounds_and_fifo (α : Type) [Inhabited α] (c : ℕ)
    (hc : 0 < c) (hw : 2 * c ≤ sizeTW)
    (ops : List (ConcurrentRingBuffer.RBOp α)) :
    ConcurrentRingBuffer.size
        (ConcurrentRingBuffer.run (ConcurrentRingBuffer.init α c) ops) ≤ c
    ∧ 0 ≤ ConcurrentRingBuffer.size
        (ConcurrentRingBuffer.run (ConcurrentRingBuffer.init α c) ops)
    ∧ ∀ x : α,
        ConcurrentRingBuffer.size
            (ConcurrentRingBuffer.run (ConcurrentRingBuffer.init α c) ops) = 0 →
        ((ConcurrentRingBuffer.run (ConcurrentRingBuffer.init α c) ops).push
            x).1 = true →
        (((ConcurrentRingBuffer.run (ConcurrentRingBuffer.init α c) ops).push
            x).2.pop).1 = some x := by
  set s := ConcurrentRingBuffer.run (ConcurrentRingBuffer.init α c) ops with hs
  have hinv : ConcurrentRingBuffer.Inv c s :=
    ConcurrentRingBuffer.inv_run (ConcurrentRingBuffer.inv_init hc) hc ops
  obtain ⟨h1, h2, h3, h4⟩ := hinv
  refine ⟨le_of_lt (ConcurrentRingBuffer.size_lt hc h3), Nat.zero_le _, ?_⟩
  intro x hsize hsucc
  rw [ConcurrentRingBuffer.size_eq ⟨h1, h2, h3, h4⟩ hc hw] at hsize
  have hth : s.tail = s.head := by
    rcases Nat.lt_or_ge s.tail s.head with ho | ho
    · have e : s.tail + c - s.head = c - (s.head - s.tail) := by omega
      rw [e, Nat.mod_eq_of_lt (by omega)] at hsize
      omega
    · have e : s.tail + c - s.head = (s.tail - s.head) + c := by omega
      rw [e, Nat.add_mod_right, Nat.mod_eq_of_lt (by omega)] at hsize
      omega
  simp only [ConcurrentRingBuffer.push] at hsucc ⊢
  by_cases hcond : (s.tail + 1) % s.capacity = s.head
  · rw [if_pos hcond] at hsucc
    exact absurd hsucc (by simp)
  · rw [if_neg hcond]
    simp only [ConcurrentRingBuffer.pop]
    rw [if_neg (fun hh => hcond hh.symm)]
    simp only
    rw [← hth]
    rw [getD_set_self s.buf s.tail x default (by omega)]

/-- Witness for C7 amended at capacity 3: starting from the empty buffer a
successful push of 5 followed immediately by a pop returns 5. -/
theorem C7_size_bounds_and_fifo_witness :
    ConcurrentRingBuffer.size
        (ConcurrentRingBuffer.run (ConcurrentRingBuffer.init ℕ 3) []) ≤ 3
    ∧ (((ConcurrentRingBuffer.run (ConcurrentRingBuffer.init ℕ 3) []).push
        5).2.pop).1 = some 5 := by
  refine ⟨(C7_size_bounds_and_fifo ℕ 3 (by decide) (by decide) []).1, ?_⟩
  exact (C7_size_bounds_and_fifo ℕ 3 (by decide) (by decide) []).2.2 5
    (by decide) (by decide)

/-- A core whose `running_` flag has transitioned to `false` (as the
destructor does before joining the workers). -/
def shutdownCore : QuantumIOCore :=
  QuantumIOCore.shutdown ⟨2, [⟨[]⟩, ⟨[]⟩], true⟩

/-- C8: the claim says `submit` after shutdown rejects the task with an
explicit error and does not enqueue it.  The code violates this: `submit`
never reads the running flag and returns `void`, so on the concrete
shut-down core below the task 7 is enqueued into queue 1 and no error
reaches the caller (the model's only output is the new state). -/
theorem C8_submit_enqueues_after_shutdown :
    shutdownCore.running = false
    ∧ (shutdownCore.submit 0 1 7).task_queues = [⟨[]⟩, ⟨[7]⟩]
    ∧ (shutdownCore.submit 0 1 7).running = false :=
  ⟨rfl, rfl, rfl⟩

/-- C9: `size_approx` returns 0 on every queue state, so the power-of-two
comparison in `get_optimal_queue` always sees two equal occupancies and
always selects the second sampled queue — placement degenerates to a single
uniform random choice. -/
theorem C9_size_approx_zero_second_choice (q : LockFreeMPSCQueue)
    (core : QuantumIOCore) (q1 q2 : ℕ) :
    q.size_approx = 0 ∧ core.get_optimal_queue q1 q2 = q2 := by
  refine ⟨rfl, ?_⟩
  simp [QuantumIOCore.get_optimal_queue, LockFreeMPSCQueue.size_approx]

/-- C10: a buffer of capacity `c` holds at most `c - 1` items: over every
operation sequence, `size()` stays at most `c - 1` and `push` fails exactly
when the occupancy is `c - 1`; instantiated at the scheduler's 100-slot
metrics history, the buffer never holds more than 99 samples no matter what
samples are recorded. -/
theorem C10_capacity_minus_one (α : Type) [Inhabited α] (c : ℕ)
    (hc : 0 < c) (hw : 2 * c ≤ sizeTW)
    (ops : List (ConcurrentRingBuffer.RBOp α)) (x : α)
    (samples : List NetworkMetrics) :
    ConcurrentRingBuffer.size
        (ConcurrentRingBuffer.run (ConcurrentRingBuffer.init α c) ops) ≤ c - 1
    ∧ (((ConcurrentRingBuffer.run (ConcurrentRingBuffer.init α c) ops).push
          x).1 = false
        ↔ ConcurrentRingBuffer.size
            (ConcurrentRingBuffer.run (ConcurrentRingBuffer.init α c) ops)
          = c - 1)
    ∧ ConcurrentRingBuffer.size
        (samples.foldl add_metrics_sample schedulerInit).metrics_buffer ≤ 99 := by
  have hinv : ConcurrentRingBuffer.Inv c
      (ConcurrentRingBuffer.run (ConcurrentRingBuffer.init α c) ops) :=
    ConcurrentRingBuffer.inv_run (ConcurrentRingBuffer.inv_init hc) hc ops
  refine ⟨?_, ConcurrentRingBuffer.push_fails_iff hinv hc hw x, ?_⟩
  · have := ConcurrentRingBuffer.size_lt hc hinv.2.2.1
    omega
  · rw [metrics_buffer_runs]
    have hinv100 : ConcurrentRingBuffer.Inv 100
        ((schedulerInit.metrics_buffer).run
          (samples.map ConcurrentRingBuffer.RBOp.pushOp)) :=
      ConcurrentRingBuffer.inv_run
        (ConcurrentRingBuffer.inv_init (by norm_num)) (by norm_num) _
    have := ConcurrentRingBuffer.size_lt (c := 100) (by norm_num) hinv100.2.2.1
    omega

/-- Witness for C10: four pushes into a capacity-5 buffer reach occupancy
4 = 5 - 1, and the next push fails. -/
theorem C10_capacity_minus_one_witness :
    ConcurrentRingBuffer.size
        (ConcurrentRingBuffer.run (ConcurrentRingBuffer.init ℕ 5)
          [.pushOp 1, .pushOp 2, .pushOp 3, .pushOp 4]) ≤ 4
    ∧ ((ConcurrentRingBuffer.run (ConcurrentRingBuffer.init ℕ 5)
          [.pushOp 1, .pushOp 2, .pushOp 3, .pushOp 4]).push 9).1 = false := by
  refine ⟨?_, ?_⟩
  · exact (C10_capacity_minus_one ℕ 5 (by decide) (by decide)
      [.pushOp 1, .pushOp 2, .pushOp 3, .pushOp 4] 9 []).1
  · exact (C10_capacity_minus_one ℕ 5 (by decide) (by decide)
      [.pushOp 1, .pushOp 2, .pushOp 3, .pushOp 4] 9 []).2.1.mpr (by decide)
